import Mathlib

/-!
Verification of the nanoSQL query-execution core (`_NanoSQLStorageQuery`,
`_MutateSelection`, `_RowSelection`, `InstanceSelection`, `_where`, `_compare`)
against its natural-language specification.  Each namespace below embeds the
part of the source that one group of claims is about; theorems follow after all
definitions.
-/

namespace NanoSQL

/- ============================================================ -/
/- C1: ORM synchronizer (`_NanoSQLStorageQuery._syncORM`, add case,
      and `_updateORMRows`)                                      -/
/- ============================================================ -/

namespace ORM

/-- Value stored in an ORM relationship column: null (covering both JS null and
undefined), a scalar primary key, or an array of primary keys.  Primary keys are
modelled as integers. -/
inductive OrmVal
| null
| single (v : Int)
| arr (l : List Int)
deriving DecidableEq

/-- JavaScript strict equality as used by the `equals` helper of `_syncORM` in
its non-array branch (`val1 === val2`).  Arrays compare by reference in JS; the
two column values compared there come from two different row objects, so an
array never reaches this branch anyway (the both-array case is handled before),
and any remaining mixed comparison is false. -/
def jsStrictEq : OrmVal → OrmVal → Bool
| OrmVal.null, OrmVal.null => true
| OrmVal.single a, OrmVal.single b => decide (a = b)
| _, _ => false

/-- The `equals` helper defined inside `_syncORM`.  For two arrays of equal
length it returns `val1.filter((v, i) => v !== val2[i]).length > 0`, i.e. true
iff the arrays DIFFER at some position; for different lengths it returns false;
otherwise it falls back to strict equality. -/
def equals (v1 v2 : OrmVal) : Bool :=
  match v1, v2 with
  | OrmVal.arr l1, OrmVal.arr l2 =>
    if l1.length ≠ l2.length then false
    else decide (0 < ((l1.zip l2).filter (fun p => decide (p.1 ≠ p.2))).length)
  | a, b => jsStrictEq a b

/-- A row of either table of an ORM relationship: column name to value. -/
abbrev OrmRow := List (String × OrmVal)

/-- Reading a column of a row; an absent column reads as null/undefined. -/
def rowVal (r : OrmRow) (c : String) : OrmVal :=
  match r.lookup c with
  | some v => v
  | none => OrmVal.null

/-- One ORM relationship edge, as stored in `_relToTable`:
`_thisColumn`/`_thisType` on the written table, `_fromColumn`/`_fromType` on
the remote table (the remote table itself is passed separately as a row map). -/
structure Relation where
  thisColumn : String
  thisIsArray : Bool
  fromColumn : String
  fromIsArray : Bool

/-- The `x || []` pattern applied to an ORM column value: an array is kept,
null/undefined becomes the empty array.  (ORM columns of array arity hold
arrays or null in well-typed data.) -/
def orEmpty : OrmVal → List Int
| OrmVal.arr l => l
| _ => []

/-- Overwrite (or add) a column of a row. -/
def setCol (r : OrmRow) (c : String) (v : OrmVal) : OrmRow :=
  if (r.lookup c).isSome then
    r.map (fun kv => if kv.1 = c then (kv.1, v) else kv)
  else r ++ [(c, v)]

/-- The mutation `_updateORMRows` applies to one remote row before the upsert
it issues for that row.  Array arity: push the primary key if absent (add) or
splice out its first occurrence (remove), then sort; note that in the source
the early `rowDone()` calls are not followed by `return`, so the sort and the
upsert run for every fetched row even when nothing was pushed or spliced.
Single arity: overwrite with the primary key (add) or null (remove).
JS `Array.sort()` orders by string code units; the numeric sort used here is
equivalent for the single-digit keys in the witnesses and irrelevant to the
theorems (which concern whether any write happens at all). -/
def updateORMRow (rel : Relation) (add : Bool) (p : Int) (row : OrmRow) : OrmRow :=
  if rel.fromIsArray then
    let l := orEmpty (rowVal row rel.fromColumn)
    let l2 :=
      if add then (if decide (p ∈ l) then l else l ++ [p])
      else l.erase p
    setCol row rel.fromColumn (OrmVal.arr (l2.mergeSort (fun a b => decide (a ≤ b))))
  else
    setCol row rel.fromColumn (if add then OrmVal.single p else OrmVal.null)

/-- Modelled from the spec: `_store._read(table, pks)` with a list of primary
keys is the adapter batch read `batchRead(table, pks) → rows`; keys without a
stored row produce no row.  (`storage.ts` is not part of the provided source.) -/
def readRemote (remote : List (Int × OrmRow)) (pks : List Int) : List (Int × OrmRow) :=
  pks.filterMap (fun k => (remote.lookup k).map (fun r => (k, r)))

/-- The remote-table writes performed by one `_updateORMRows(relation, fromPKs,
add, primaryKey)` call: every row fetched for `fromPKs` is mutated by
`updateORMRow` and written back (as a pk-tagged row). -/
def updateORMRowsWrites (remote : List (Int × OrmRow)) (rel : Relation)
    (pks : List Int) (add : Bool) (p : Int) : List (Int × OrmRow) :=
  (readRemote remote pks).map (fun kr => (kr.1, updateORMRow rel add p kr.2))

/-- The scalar keys a single-arity ORM value contributes when passed to
`_updateORMRows` as `[value]`: a scalar key looks up that remote row; an array
reference used as a primary key matches no remote row. -/
def scalarKeys : OrmVal → List Int
| OrmVal.single a => [a]
| _ => []

/-- The `[value].filter(v => v)` pattern: keep the value iff truthy (so null,
undefined and the scalar 0 are dropped; arrays are truthy but match no remote
key, see `scalarKeys`). -/
def truthyKeys : OrmVal → List Int
| OrmVal.single a => if a = 0 then [] else [a]
| OrmVal.arr _ => []
| OrmVal.null => []

/-- The remote writes performed by the add case of `_syncORM` for one row pair
(old row if a previous record exists, new row) under one relation.  Mirrors
lines 244-292 of the source: if a previous record exists and `equals` holds,
nothing is done; otherwise for array arity the add-set and remove-set are
computed by membership (`indexOf === -1`) and each is sent to
`_updateORMRows`; for single arity the old connection is removed (when the old
value is neither null nor undefined) and then the new one added (when the new
value is neither null nor undefined).  With no previous record, the new values
(array contents, or truthy scalar) are added when non-empty. -/
def syncORMAddWrites (rel : Relation) (remote : List (Int × OrmRow))
    (oldRow : Option OrmRow) (newRow : OrmRow) (p : Int) : List (Int × OrmRow) :=
  match oldRow with
  | some old =>
    if equals (rowVal old rel.thisColumn) (rowVal newRow rel.thisColumn) then []
    else if rel.thisIsArray then
      let oldL := orEmpty (rowVal old rel.thisColumn)
      let newL := orEmpty (rowVal newRow rel.thisColumn)
      let addIds := newL.filter (fun v => !(decide (v ∈ oldL)))
      let removeIds := oldL.filter (fun v => !(decide (v ∈ newL)))
      updateORMRowsWrites remote rel addIds true p ++
        updateORMRowsWrites remote rel removeIds false p
    else
      let oldV := rowVal old rel.thisColumn
      let newV := rowVal newRow rel.thisColumn
      (match oldV with
       | OrmVal.null => []
       | v => updateORMRowsWrites remote rel (scalarKeys v) false p) ++
      (match newV with
       | OrmVal.null => []
       | v => updateORMRowsWrites remote rel (scalarKeys v) true p)
  | none =>
    let valuesToAdd :=
      if rel.thisIsArray then orEmpty (rowVal newRow rel.thisColumn)
      else truthyKeys (rowVal newRow rel.thisColumn)
    if valuesToAdd.length ≠ 0 then updateORMRowsWrites remote rel valuesToAdd true p
    else []

/-- Equality of two relationship column values in the sense of claim C1: the
same scalar, or arrays of the same length with equal elements at every
position. -/
def sameOrmValue (v1 v2 : OrmVal) : Prop :=
  (∃ a, v1 = OrmVal.single a ∧ v2 = OrmVal.single a) ∨
  (∃ l1 l2, v1 = OrmVal.arr l1 ∧ v2 = OrmVal.arr l2 ∧ l1.length = l2.length ∧
    ∀ i : Nat, ∀ h1 : i < l1.length, ∀ h2 : i < l2.length, l1.get ⟨i, h1⟩ = l2.get ⟨i, h2⟩)

end ORM

/- ============================================================ -/
/- C5: compound WHERE evaluation (`_where`)                      -/
/- ============================================================ -/

namespace WhereEval

/-- Logical connective at the odd positions of a compound WHERE list. -/
inductive Conn
| and
| or
deriving DecidableEq

/-- An entry of a compound WHERE list: a leaf condition (abstracted to its
boolean comparison result, since the claim is about how leaf results are
combined) or a connective string. -/
inductive WElem
| leaf (b : Bool)
| conn (c : Conn)
deriving DecidableEq

/-- The `where.indexOf("OR") !== -1` test of `_where`: does the list contain
the connective OR (JS `indexOf` with strict equality is membership). -/
def hasOrB (l : List WElem) : Bool :=
  decide (WElem.conn Conn.or ∈ l)

/-- The `compareResult` read at an even position.  A connective at an even
position cannot occur in a well-formed alternating list; it is read as false. -/
def leafVal : WElem → Bool
| WElem.leaf b => b
| WElem.conn _ => false

/-- The `prevCondition` update at an odd position.  A leaf at an odd position
cannot occur in a well-formed list; since it is not the string AND it would
take the OR branch on the next step, modelled as none. -/
def connOf : WElem → Option Conn
| WElem.conn c => some c
| WElem.leaf _ => none

/-- Faithful recursion of the `where.reduce(...)` body of `_where` for
compound statements: `idx` is the reduce index, `prev` the accumulator,
`decided` the early-exit flag, `prevCond` the last connective seen.  At odd
indices the connective is recorded; at even indices the leaf result is
computed, and if the list has no OR a false leaf decides the whole result as
false; index 0 seeds the accumulator; otherwise the previous connective
combines the accumulator with the leaf result. -/
def whereReduce (hasOr : Bool) : List WElem → Nat → Bool → Option Bool → Option Conn → Bool
| [], _, prev, _, _ => prev
| e :: rest, idx, prev, decided, prevCond =>
  match decided with
  | some d => whereReduce hasOr rest (idx + 1) d (some d) prevCond
  | none =>
    if idx % 2 = 1 then
      whereReduce hasOr rest (idx + 1) prev none (connOf e)
    else
      let compareResult := leafVal e
      if !hasOr && !compareResult then
        whereReduce hasOr rest (idx + 1) false (some false) prevCond
      else if idx = 0 then
        whereReduce hasOr rest (idx + 1) compareResult none prevCond
      else
        match prevCond with
        | some Conn.and => whereReduce hasOr rest (idx + 1) (prev && compareResult) none prevCond
        | _ => whereReduce hasOr rest (idx + 1) (prev || compareResult) none prevCond

/-- `_where` on a compound list: compute `hasOr` from the whole list, then run
the reduce with initial accumulator false. -/
def whereCompound (l : List WElem) : Bool :=
  whereReduce (hasOrB l) l 0 false none none

/-- Combination of an accumulated result with a leaf result by a connective. -/
def applyConn : Conn → Bool → Bool → Bool
| Conn.and, a, b => a && b
| Conn.or, a, b => a || b

/-- The plain left-to-right fold of leaf results combined by the connectives,
with no early exit: the reference the claim compares the evaluator against. -/
def specFold (b : Bool) (rest : List (Conn × Bool)) : Bool :=
  rest.foldl (fun acc cb => applyConn cb.1 acc cb.2) b

/-- A well-formed alternating WHERE list: a leading leaf followed by
connective/leaf pairs. -/
def interleave (b : Bool) (rest : List (Conn × Bool)) : List WElem :=
  WElem.leaf b :: rest.flatMap (fun cb => [WElem.conn cb.1, WElem.leaf cb.2])

end WhereEval

/- ============================================================ -/
/- C4: full-text exact search
      (`_RowSelection._selectRowsByIndexOrSearch`, `whereType === 0`) -/
/- ============================================================ -/

namespace Search

/-- A query token produced by `_tokenizer`: normalized word `w` at query
position `i` (the original spelling only matters in fuzzy mode). -/
structure Token where
  w : String
  i : Nat
deriving DecidableEq

/-- Positions of a normalized word in the stored tokenization of a row column
(the tokenization is the list of normalized words, position = list index).
This is the `i` list of the exact search index record of that word, restricted
to the row. -/
def positionsOf (w : String) (rowTokens : List String) : List Nat :=
  (rowTokens.enum.filter (fun p => decide (p.2 = w))).map (fun p => p.1)

/-- The keys of `reducedResults[rowPK]` after the exact-index reads: the
distinct query tokens (in first-occurrence order) that occur in the row. -/
def matchedWords (terms : List Token) (rowTokens : List String) : List String :=
  ((terms.map Token.w).eraseDups).filter (fun w => decide (positionsOf w rowTokens ≠ []))

/-- The `startingWord` array of the exact branch: the row positions of the
first query token, when that token is among the matched words. -/
def startingWord (terms : List Token) (rowTokens : List String) : List Nat :=
  match terms with
  | [] => []
  | t0 :: _ =>
    if decide (t0.w ∈ matchedWords terms rowTokens) then positionsOf t0.w rowTokens
    else []

/-- The `doingGood` contiguity flag of the exact branch, as written in the
source: for the i-th entry `location` of `startingWord`, look up the (i+1)-th
QUERY token; when it is among the matched words, require its position list to
contain `nextWord.i + location`.  (The source pairs the i-th OCCURRENCE of the
first word with the (i+1)-th query token, so query tokens beyond the number of
occurrences of the first word are never checked.) -/
def doingGood (terms : List Token) (rowTokens : List String) : Bool :=
  ((startingWord terms rowTokens).enum).all (fun il =>
    match terms.get? (il.1 + 1) with
    | none => true
    | some nw =>
      if decide (nw.w ∈ matchedWords terms rowTokens) then
        decide ((nw.i + il.2) ∈ positionsOf nw.w rowTokens)
      else true)

/-- Row filter of the exact search mode (`whereType === 0`): the row survives
the term-count filter iff its number of distinct matched query tokens equals
the number of query terms, and (for multi-term queries only) the `doingGood`
check must hold, else the weight entry is deleted. -/
def exactKeep (terms : List Token) (rowTokens : List String) : Bool :=
  decide ((matchedWords terms rowTokens).length = terms.length) &&
    (decide (terms.length ≤ 1) || doingGood terms rowTokens)

/-- The set of row pks returned by `where = [search(col), =, term]` on a store
pairing each pk with the stored tokenization of the column. -/
def searchExactSelect (terms : List Token) (store : List (Int × List String)) : List Int :=
  (store.filter (fun pr => exactKeep terms pr.2)).map (fun pr => pr.1)

/-- The property claim C4 requires of returned rows: the query token sequence
appears at consecutive positions of the row tokenization, in order and
contiguously. -/
def contiguousIn (words : List String) (rowTokens : List String) : Bool :=
  (List.range (rowTokens.length + 1)).any
    (fun k => decide ((rowTokens.drop k).take words.length = words))

end Search

/- ============================================================ -/
/- C6: instance-table UPSERT (`_NanoSQLStorageQuery._upsert`,
      instance branch, with `InstanceSelection.getRows`)         -/
/- ============================================================ -/

namespace Inst

/-- A row object: association list from field name to value; lookups take the
first matching entry, so earlier entries shadow later ones. -/
abbrev Obj := List (String × Int)

/-- Field access on a row object. -/
def getField (o : Obj) (k : String) : Option Int :=
  (o.find? (fun kv => decide (kv.1 = k))).map (fun kv => kv.2)

/-- JS object spread `{...a, ...b}`: the keys of `b` shadow the keys of `a`
(under the first-entry-wins lookup of `getField`). -/
def spread (a b : Obj) : Obj := b ++ a

/-- `_upsert` on an instance table with a WHERE clause: `_getRows` delegates
to `InstanceSelection.getRows`, which filters the input rows by the WHERE
predicate; the result maps the input list, leaving rows not among the selected
ones (`rows.indexOf(r) === -1`, identity modelled as structural membership)
unchanged and replacing each selected row `r` by
`{...this._query.actionArgs, ...r}`. -/
def upsertInstance (table : List Obj) (w : Obj → Bool) (args : Obj) : List Obj :=
  let rows := table.filter w
  table.map (fun r => if r ∈ rows then spread args r else r)

/-- The merge direction asserted by claim C6: fields from `actionArgs`
overwrite the row fields of the same name. -/
def spreadArgsWin (args r : Obj) : Obj := args ++ r

end Inst

/- ============================================================ -/
/- C7: range selection (`_RowSelection._selectByRange`)          -/
/- ============================================================ -/

namespace RangeSel

/-- Modelled from the spec: the positional range read
`_store._rangeRead(table, from, to, false)` returns the stored rows whose
position in primary-key order lies between `from` and `to`, with both
endpoints included.  (The storage layer is not part of the provided source;
the inclusive endpoints follow the in-source `InstanceSelection` range filter
`idx >= from && idx <= to` and the `toIdx` construction of `_selectByRange`
itself, which advances `toIdx` only `Math.abs(limit) - 1` times.) -/
def rangeRead {α : Type} (rows : List α) (a b : Int) : List α :=
  (rows.enum.filter (fun p => decide (a ≤ (p.1 : Int) ∧ (p.1 : Int) ≤ b))).map
    (fun p => p.2)

/-- `_RowSelection._selectByRange` with `range = [limit, offset]`: a positive
limit range-reads positions `offset` through `offset + limit`; otherwise the
row count is fetched first and the read starts at `count + limit - offset`,
with the end index incremented `|limit| - 1` times. -/
def selectByRange {α : Type} (rows : List α) (limit offset : Int) : List α :=
  if limit > 0 then rangeRead rows offset (offset + limit)
  else
    let count : Int := rows.length
    let fromIdx := count + limit - offset
    let toIdx := fromIdx + ((limit.natAbs - 1 : Nat) : Int)
    rangeRead rows fromIdx toIdx

end RangeSel

/- ============================================================ -/
/- C2, C3: dispatcher and per-table result cache
      (`_NanoSQLStorageQuery._select`, `._upsert`, `._delete`, `._drop`) -/
/- ============================================================ -/

namespace Engine

/-- A stored row: association list from column name to value; lookups take the
first matching entry. -/
abbrev Obj := List (String × Int)

/-- Field access on a row. -/
def getF (o : Obj) (k : String) : Option Int :=
  (o.find? (fun kv => decide (kv.1 = k))).map (fun kv => kv.2)

/-- The part of the query descriptor consulted by the dispatcher, the cache
and the mutation stages modelled here.  `whereC` is a single equality leaf
[column, =, value] (none = no WHERE); `offset`/`limit` use the JS truthiness
convention (0 = falsy = absent); `join`/`orm` model the presence of those
clauses; `args` is the row of an upsert.  `queryID` is zeroed before
fingerprinting in the source, so it is omitted here and the fingerprint of a
query is the query itself (the stable hash is modelled as injective). -/
structure Query where
  table : String
  whereC : Option (String × Int)
  offset : Nat
  limit : Nat
  join : Bool
  orm : Bool
  args : Obj
deriving DecidableEq

/-- Engine state: the stored rows of each table in primary-key order, the
per-table result cache from query fingerprint to result rows, the primary-key
column of each table (`tableInfo[t]._pk`), and the `_doCache` flag. -/
structure DBState where
  tables : String → List Obj
  cache : String → List (Query × List Obj)
  pkOf : String → String
  doCache : Bool

/-- Cache probe `this._store._cache[table][hash]`. -/
def cacheGet (st : DBState) (t : String) (q : Query) : Option (List Obj) :=
  ((st.cache t).find? (fun e => decide (e.1 = q))).map (fun e => e.2)

/-- Cache store `this._store._cache[table][hash] = rows`. -/
def cachePut (st : DBState) (t : String) (q : Query) (rows : List Obj) : DBState :=
  { st with cache := fun u => if u = t then (q, rows) :: st.cache t else st.cache u }

/-- Cache wipe `this._store._cache[table] = {}`. -/
def cacheClear (st : DBState) (t : String) : DBState :=
  { st with cache := fun u => if u = t then [] else st.cache u }

/-- Evaluation of the single equality leaf against a row (`_compare` with =,
both values numbers). -/
def evalLeaf (l : String × Int) (r : Obj) : Bool :=
  decide (getF r l.1 = some l.2)

/-- Row selection for a named table: the stored rows filtered by the WHERE
leaf when present.  (For an equality leaf the fast index path and the full
table scan select the same rows; the positional and search strategies are
settled separately under `RangeSel` and `Search`.) -/
def getRows (st : DBState) (q : Query) : List Obj :=
  match q.whereC with
  | none => st.tables q.table
  | some l => (st.tables q.table).filter (evalLeaf l)

/-- The `["having", "orderBy", "offset", "limit", "actionArgs", "groupBy",
"orm", "join"].filter(k => this._query[k]).length` truthiness test of
`_select`, restricted to the clauses carried by `Query` (the selects settled
here have no having/orderBy/groupBy/actionArgs). -/
def hasMutationArgs (q : Query) : Bool :=
  decide (q.offset ≠ 0) || decide (q.limit ≠ 0) || q.join || q.orm

/-- `_MutateSelection._offset`: keep the rows whose index is at least the
offset (the stage itself re-checks truthiness). -/
def offsetStage (q : Query) (rows : List Obj) : List Obj :=
  (rows.enum.filter (fun p => if q.offset ≠ 0 then decide (p.1 ≥ q.offset) else true)).map
    (fun p => p.2)

/-- `_MutateSelection._limit`: keep the rows whose index is below the limit. -/
def limitStage (q : Query) (rows : List Obj) : List Obj :=
  (rows.enum.filter (fun p => if q.limit ≠ 0 then decide (p.1 < q.limit) else true)).map
    (fun p => p.2)

/-- `_MutateSelection._executeQueryArguments` restricted to the modelled
stages, in source order: offset, then limit, each applied only when its
clause is truthy. -/
def executeQueryArguments (q : Query) (rows : List Obj) : List Obj :=
  let r1 := if q.offset ≠ 0 then offsetStage q rows else rows
  if q.limit ≠ 0 then limitStage q r1 else r1

/-- `_NanoSQLStorageQuery._select` on a named table.  The query is cacheable
iff it has no join, no orm and `_doCache` is set; a cache hit returns the
cached rows.  Otherwise the rows are selected; with no mutation arguments the
selected rows are cached and returned; with mutation arguments the mutation
stages produce the returned `resultRows`, but the cache-store line of that
branch stores `rows` — the UNMUTATED selected rows — exactly as the source
does. -/
def select (st : DBState) (q : Query) : List Obj × DBState :=
  let canCache := !q.join && !q.orm && st.doCache
  match (if canCache then cacheGet st q.table q else none) with
  | some rows => (rows, st)
  | none =>
    let rows := getRows st q
    if !(hasMutationArgs q) then
      (rows, if canCache then cachePut st q.table q rows else st)
    else
      let resultRows := executeQueryArguments q rows
      (resultRows, if canCache then cachePut st q.table q rows else st)

/-- JS object spread of the update over the base row (later entries of the
update shadow the base under first-entry-wins lookup). -/
def mergeObj (base upd : Obj) : Obj := upd ++ base

/-- Modelled from the spec: `_NanoSQLStorage._write(table, pk, oldRow,
newData)` merges the new columns over the existing row and persists the
result under the primary key (`storage.ts` is not part of the provided
source).  The stored row with that key is replaced; a fresh key appends. -/
def writeRowByPk (st : DBState) (t : String) (pk : Int) (newRow : Obj) : DBState :=
  { st with tables := fun u =>
      (if u = t then
        (if (st.tables t).any (fun r => decide (getF r (st.pkOf t) = some pk)) then
          (st.tables t).map (fun r =>
            if getF r (st.pkOf t) = some pk then newRow else r)
        else st.tables t ++ [newRow])
      else st.tables u) }

/-- `_NanoSQLStorageQuery._upsert` on a named table.  With a WHERE clause the
matching rows are selected; if any match, each is merged with `actionArgs`
and written back and then the per-table cache is emptied; with no matches
nothing is written and the cache is left untouched.  With no WHERE clause the
cache is emptied up front and the `actionArgs` row is written over the
existing row of its primary key (a row without a primary key is appended
with an adapter-assigned key, modelled from the spec).  The search-index,
view and ORM maintenance steps never touch the result cache and are settled
under their own namespaces. -/
def upsert (st : DBState) (q : Query) : DBState :=
  match q.whereC with
  | some l =>
    let rows := (st.tables q.table).filter (evalLeaf l)
    if rows.isEmpty then st
    else
      let st1 := rows.foldl (fun acc r =>
        match getF r (acc.pkOf q.table) with
        | some pk => writeRowByPk acc q.table pk (mergeObj r q.args)
        | none => acc) st
      cacheClear st1 q.table
  | none =>
    let st1 := cacheClear st q.table
    match getF q.args (st1.pkOf q.table) with
    | some pk =>
      let old := (st1.tables q.table).find? (fun r =>
        decide (getF r (st1.pkOf q.table) = some pk))
      writeRowByPk st1 q.table pk (mergeObj (old.getD []) q.args)
    | none =>
      { st1 with tables := fun u =>
          (if u = q.table then st1.tables q.table ++ [q.args] else st1.tables u) }

/-- `_NanoSQLStorageQuery._drop` on a named table: the cache is emptied and
the table cleared. -/
def dropQ (st : DBState) (t : String) : DBState :=
  cacheClear
    { st with tables := fun u => if u = t then [] else st.tables u } t

/-- `_NanoSQLStorageQuery._delete` on a named table: with a WHERE clause the
matching rows are selected; if any match they are deleted and the cache is
emptied, otherwise nothing changes; with no WHERE clause the query performs a
drop. -/
def deleteQ (st : DBState) (q : Query) : DBState :=
  match q.whereC with
  | some l =>
    let rows := (st.tables q.table).filter (evalLeaf l)
    if rows.isEmpty then st
    else
      let st1 := { st with tables := fun u =>
          (if u = q.table then (st.tables q.table).filter (fun r => !(evalLeaf l r))
          else st.tables u) }
      cacheClear st1 q.table
  | none => dropQ st q.table

/-- Concrete state for C2: table t holds two rows, caching enabled, cache
empty. -/
def st2 : DBState :=
  { tables := fun u => if u = "t" then [[("id", 1)], [("id", 2)]] else []
    cache := fun _ => []
    pkOf := fun _ => "id"
    doCache := true }

/-- Concrete query for C2: a cacheable SELECT on t with limit 1. -/
def qLimit : Query := ⟨"t", none, 0, 1, false, false, []⟩

/-- Concrete fingerprint already cached for C3. -/
def qCached : Query := ⟨"t", none, 0, 0, false, false, []⟩

/-- Concrete state for C3: table t holds one row and its cache holds one
stored result. -/
def st3 : DBState :=
  { tables := fun u => if u = "t" then [[("id", 1)]] else []
    cache := fun u => if u = "t" then [(qCached, [[("id", 1)]])] else []
    pkOf := fun _ => "id"
    doCache := true }

/-- Concrete upsert for C3 whose WHERE clause matches no stored row. -/
def qNoMatch : Query := ⟨"t", some ("id", 99), 0, 0, false, false, [("id", 99), ("x", 5)]⟩

end Engine

/- ============================================================ -/
/- C8: fatal schema-misuse errors and their effects
      (`_RowSelection` constructor, `InstanceSelection.getRows`,
      `_MutateSelection._mutateRows`)                            -/
/- ============================================================ -/

namespace Err

/-- A row: association list from column name to value. -/
abbrev Obj := List (String × Int)

/-- Field access on a row. -/
def getF (o : Obj) (k : String) : Option Int :=
  (o.find? (fun kv => decide (kv.1 = k))).map (fun kv => kv.2)

/-- An adapter effect attributable to one query: reading, writing or deleting
the row with the given primary key. -/
inductive Eff
| rd (pk : Int)
| wr (pk : Int)
| del (pk : Int)
deriving DecidableEq

/-- The errors thrown synchronously by the pipeline: join with orm, more than
one of trie/range/where, join/orm/trie on an instance table, and an
unregistered function name in a selection expression. -/
inductive QErr
| joinAndOrm
| oneOfTrieRangeWhere
| instanceJoinOrmTrie
| unknownFunction (name : String)
deriving DecidableEq

/-- A selection expression of `actionArgs` on a SELECT: a plain column or a
function call. -/
inductive SelExpr
| col (c : String)
| fn (name : String)
deriving DecidableEq

/-- The query fields consulted by the error checks and the selection
strategies modelled here; the table is a name or a literal row array.
`actionArgs` holds the selection expressions of a SELECT; `row` holds the
actionArgs row of an upsert. -/
structure EQuery where
  table : String ⊕ List Obj
  whereC : Option (String × Int)
  range : Option (Int × Int)
  trie : Bool
  join : Bool
  orm : Bool
  actionArgs : List SelExpr
  row : Obj

/-- Primary key of a row for effect accounting (pk column fixed to id in this
model; a keyless row is keyed 0). -/
def pkOf (r : Obj) : Int := (getF r "id").getD 0

/-- Is an effect a write or a delete? -/
def isWriteEff : Eff → Bool
| Eff.rd _ => false
| Eff.wr _ => true
| Eff.del _ => true

/-- Does an effect list commit a write or delete? -/
def hasWriteOrDelete (effs : List Eff) : Bool := effs.any isWriteEff

/-- Is an Except an error? -/
def isErr {α : Type} : Except QErr α → Bool
| Except.error _ => true
| Except.ok _ => false

/-- The `[this.q.where, this.q.range, this.q.trie].filter(i => i).length`
count of the `_RowSelection` constructor. -/
def presentCount (q : EQuery) : Nat :=
  ([q.whereC.isSome, q.range.isSome, q.trie].filter (fun b => b)).length

/-- `_RowSelection` on a named table: the constructor first throws on join
with orm and on more than one of trie/range/where; a join emits the empty
seed with no reads; a trie query returns the trie-index rows (modelled from
the spec: the trie index lives in the storage layer, which is not part of the
provided source, so its outcome is the parameter `trieRows`); a range query
is the positional read of `_selectByRange`; with no WHERE the whole table is
scanned; a WHERE leaf on the primary key or a secondary index is a fast read
fetching only the matching rows, any other leaf is a full scan reading every
row.  The effect list records one read per row fetched from the adapter. -/
def rowSelection (secIdx : List String) (trieRows : List Obj) (store : List Obj)
    (q : EQuery) : Except QErr (List Obj) × List Eff :=
  if q.join && q.orm then (Except.error QErr.joinAndOrm, [])
  else if 1 < presentCount q then (Except.error QErr.oneOfTrieRangeWhere, [])
  else if q.join then (Except.ok [], [])
  else if q.trie then (Except.ok trieRows, trieRows.map (fun r => Eff.rd (pkOf r)))
  else
    match q.range with
    | some lo =>
      let rows := RangeSel.selectByRange store lo.1 lo.2
      (Except.ok rows, rows.map (fun r => Eff.rd (pkOf r)))
    | none =>
      match q.whereC with
      | none => (Except.ok store, store.map (fun r => Eff.rd (pkOf r)))
      | some l =>
        let rows := store.filter (fun r => decide (getF r l.1 = some l.2))
        if decide (l.1 = "id") || decide (l.1 ∈ secIdx) then
          (Except.ok rows, rows.map (fun r => Eff.rd (pkOf r)))
        else (Except.ok rows, store.map (fun r => Eff.rd (pkOf r)))

/-- `InstanceSelection.getRows`: throws on join, orm or trie; then applies the
range bounds (both endpoints inclusive, `idx >= from && idx <= to`) or the
WHERE filter, entirely in memory. -/
def instanceGetRows (rows : List Obj) (q : EQuery) : Except QErr (List Obj) :=
  if q.join || q.orm || q.trie then Except.error QErr.instanceJoinOrmTrie
  else
    match q.range with
    | some lo =>
      let len : Int := rows.length
      let f := if lo.1 < 0 then len + lo.1 - lo.2 else lo.2
      let t := f + ((lo.1.natAbs - 1 : Nat) : Int)
      Except.ok ((rows.enum.filter
        (fun p => decide (f ≤ (p.1 : Int) ∧ (p.1 : Int) ≤ t))).map (fun p => p.2))
    | none =>
      match q.whereC with
      | some l => Except.ok (rows.filter (fun r => decide (getF r l.1 = some l.2)))
      | none => Except.ok rows

/-- `_MutateSelection._mutateRows`: scanning the selection expressions, the
first function call whose name is not registered throws; the projection
itself is not what the error claims are about and passes the rows through. -/
def mutateRows (registered : List String) (cols : List SelExpr) (rows : List Obj) :
    Except QErr (List Obj) :=
  match cols.find? (fun e => match e with
    | SelExpr.fn n => decide (¬ n ∈ registered)
    | SelExpr.col _ => false) with
  | some (SelExpr.fn n) => Except.error (QErr.unknownFunction n)
  | _ => Except.ok rows

/-- `_select` through `_getRows`: row selection for the named or instance
table, then the mutation stage when selection expressions are present.  The
second component lists the adapter effects performed before the query ended,
including when it ended in an error. -/
def execSelect (registered secIdx : List String) (trieRows : List Obj)
    (store : List Obj) (q : EQuery) : Except QErr (List Obj) × List Eff :=
  match q.table with
  | Sum.inr inst =>
    match instanceGetRows inst q with
    | Except.error e => (Except.error e, [])
    | Except.ok rows =>
      if q.actionArgs.isEmpty then (Except.ok rows, [])
      else (mutateRows registered q.actionArgs rows, [])
  | Sum.inl _ =>
    match rowSelection secIdx trieRows store q with
    | (Except.error e, effs) => (Except.error e, effs)
    | (Except.ok rows, effs) =>
      if q.actionArgs.isEmpty then (Except.ok rows, effs)
      else (mutateRows registered q.actionArgs rows, effs)

/-- `_upsert`.  An instance table always routes through
`InstanceSelection.getRows` (before the WHERE test, so its join/orm/trie
throw fires with or without a WHERE clause), all in memory.  A named table
routes through `_RowSelection` — and its constructor checks — only when a
WHERE clause is present, writing each matched row back; with no WHERE clause
the source takes the direct-write path with NO checks at all: the upsert row
is written after the existing-row read of its primary key (one read when the
row carries a key, then one write). -/
def execUpsert (secIdx : List String) (trieRows : List Obj) (store : List Obj)
    (q : EQuery) : Except QErr (List Obj) × List Eff :=
  match q.table with
  | Sum.inr inst =>
    match instanceGetRows inst q with
    | Except.error e => (Except.error e, [])
    | Except.ok rows => (Except.ok rows, [])
  | Sum.inl _ =>
    match q.whereC with
    | some _ =>
      match rowSelection secIdx trieRows store q with
      | (Except.error e, effs) => (Except.error e, effs)
      | (Except.ok rows, effs) => (Except.ok rows, effs ++ rows.map (fun r => Eff.wr (pkOf r)))
    | none =>
      match getF q.row "id" with
      | some pk => (Except.ok [q.row], [Eff.rd pk, Eff.wr pk])
      | none => (Except.ok [q.row], [Eff.wr (pkOf q.row)])

/-- `_delete`.  An instance table with a WHERE clause routes through
`InstanceSelection.getRows` (join/orm/trie throw) and filters the matched
rows out in memory; with no WHERE clause the source returns the empty result
immediately, with NO check and no effect.  A named table with a WHERE clause
routes through `_RowSelection` and its constructor checks, then deletes each
matched row; with no WHERE clause the source performs `_drop` with NO check:
the whole table is range-read and then dropped. -/
def execDelete (secIdx : List String) (trieRows : List Obj) (store : List Obj)
    (q : EQuery) : Except QErr (List Obj) × List Eff :=
  match q.table with
  | Sum.inr inst =>
    match q.whereC with
    | some _ =>
      match instanceGetRows inst q with
      | Except.error e => (Except.error e, [])
      | Except.ok rows => (Except.ok (inst.filter (fun r => decide (¬ r ∈ rows))), [])
    | none => (Except.ok [], [])
  | Sum.inl _ =>
    match q.whereC with
    | some _ =>
      match rowSelection secIdx trieRows store q with
      | (Except.error e, effs) => (Except.error e, effs)
      | (Except.ok rows, effs) => (Except.ok rows, effs ++ rows.map (fun r => Eff.del (pkOf r)))
    | none =>
      (Except.ok store,
        store.map (fun r => Eff.rd (pkOf r)) ++ store.map (fun r => Eff.del (pkOf r)))

/-- Concrete query for the C8 counterexample: a SELECT on a named table whose
selection expressions call an unregistered function. -/
def qFn : EQuery := ⟨Sum.inl "t", none, none, false, false, false, [SelExpr.fn "BOGUS"], []⟩

/-- Concrete query with both join and orm, carrying a WHERE clause. -/
def qJoinOrm : EQuery := ⟨Sum.inl "t", some ("id", 1), none, false, true, true, [], []⟩

/-- Concrete query with both a WHERE clause and a range. -/
def qMulti : EQuery := ⟨Sum.inl "t", some ("id", 1), some (1, 0), false, false, false, [], []⟩

/-- Concrete instance-table query with a trie clause. -/
def qInstTrie : EQuery := ⟨Sum.inr [[("id", 1)]], none, none, true, false, false, [], []⟩

end Err

/- ============================================================ -/
/- C9: copy-on-write discipline for fetched rows
      (`_updateORMRows` vs `_updateRemoteViews`)                 -/
/- ============================================================ -/

namespace Frozen

/-- A row: association list from column name to value. -/
abbrev Obj := List (String × Int)

/-- Field access on a row. -/
def getF (o : Obj) (k : String) : Option Int :=
  (o.find? (fun kv => decide (kv.1 = k))).map (fun kv => kv.2)

/-- Field assignment on a row object. -/
def setF (o : Obj) (k : String) (v : Int) : Obj :=
  if (o.find? (fun kv => decide (kv.1 = k))).isSome then
    o.map (fun kv => if kv.1 = k then (kv.1, v) else kv)
  else o ++ [(k, v)]

/-- One fetched-row step of `_updateORMRows`, tracking aliasing: the result
pairs the object written back with the state of the FETCHED object after the
step.  The source guards the mutation with
`let newRow = Object.isFrozen(row) ? _assign(row) : row`, so a frozen fetched
object is copied first and itself left unchanged. -/
def updateORMRowsStep (frozen : Bool) (rel : ORM.Relation) (add : Bool) (p : Int)
    (row : ORM.OrmRow) : ORM.OrmRow × ORM.OrmRow :=
  let written := ORM.updateORMRow rel add p row
  (written, if frozen then row else written)

/-- One related-row update of `_updateRemoteViews` (write direction),
tracking aliasing: iterating the mapped columns from the last to the first
(`while (i--)`), every differing value of the source row is assigned DIRECTLY
onto the fetched row `rRow`.  The source performs no `Object.isFrozen` copy
here — unlike `_updateORMRows`, `_clearFromSearchIndex`, `_updateSearchIndex`
and `_orm` — so the object written back IS the fetched object and the fetched
row is mutated in place (under the strict-mode semantics of compiled modules
the assignment on a frozen row would instead throw a TypeError).  Columns are
pairs (thisColumn of the source row, otherColumn of the fetched row); the
second component of the result is the fetched object after the update. -/
def updateRemoteViewsStep (rRow : Obj) (srcRow : Obj)
    (cols : List (String × String)) : Obj × Obj :=
  let written := cols.reverse.foldl (fun acc c =>
    if getF acc c.2 ≠ getF srcRow c.1 then setF acc c.2 ((getF srcRow c.1).getD 0)
    else acc) rRow
  (written, written)

end Frozen

/- ============================================================ -/
/- C10: local view update on a fresh primary key
      (`_NanoSQLStorageQuery._updateRowViews` on the direct-upsert path) -/
/- ============================================================ -/

namespace Views

/-- A field value: JS null or a number.  An absent key models undefined. -/
inductive JV
| null
| num (n : Int)
deriving DecidableEq

/-- A row for the view projector. -/
abbrev VObj := List (String × JV)

/-- Field access. -/
def getV (o : VObj) (k : String) : Option JV :=
  (o.find? (fun kv => decide (kv.1 = k))).map (fun kv => kv.2)

/-- Field assignment. -/
def setV (o : VObj) (k : String) (v : JV) : VObj :=
  if (o.find? (fun kv => decide (kv.1 = k))).isSome then
    o.map (fun kv => if kv.1 = k then (kv.1, v) else kv)
  else o ++ [(k, v)]

/-- One local view definition of the written table (`_views[table]`): the
reference column on this table, the mapped columns (thisColumn, otherColumn)
and whether the mode is LIVE. -/
structure ViewDef where
  pkColumn : String
  columns : List (String × String)
  live : Bool

/-- The JS runtime error raised when a property of null is read. -/
inductive JsErr
| typeError
deriving DecidableEq

/-- One view iteration of `_updateRowViews` on the incoming row data.  The
incoming row not setting the reference column skips the view; otherwise the
source compares `newRowData[pk] === existingRow[pk]` — and on the direct
upsert of a fresh primary key the existing row passed in is null, so reading
its property throws a TypeError.  An unchanged reference skips; a null
reference nulls the projected columns; otherwise the referenced row is read
(`refRead`) and its mapped columns copied, a missing reference nulling the
columns in LIVE mode (in GHOST mode the source then reads `refRows[0]` of an
empty array, another TypeError). -/
def updateRowView (refRead : JV → List VObj) (v : ViewDef) (newRowData : VObj)
    (existingRow : Option VObj) : Except JsErr VObj :=
  match getV newRowData v.pkColumn with
  | none => Except.ok newRowData
  | some newPk =>
    match existingRow with
    | none => Except.error JsErr.typeError
    | some ex =>
      if getV ex v.pkColumn = some newPk then Except.ok newRowData
      else if newPk = JV.null then
        Except.ok (v.columns.foldl (fun acc c => setV acc c.1 JV.null) newRowData)
      else
        match refRead newPk with
        | [] =>
          if v.live then
            Except.ok (v.columns.foldl (fun acc c => setV acc c.1 JV.null) newRowData)
          else Except.error JsErr.typeError
        | ref :: _ =>
          Except.ok (v.columns.foldl
            (fun acc c => setV acc c.1 ((getV ref c.2).getD JV.null)) newRowData)

/-- `_updateRowViews`: with no views configured the row passes through; null
incoming row data becomes an empty object; otherwise every view of the table
is applied in turn (the first thrown error propagates). -/
def updateRowViews (hasViews : Bool) (views : List ViewDef) (refRead : JV → List VObj)
    (newRowData : Option VObj) (existingRow : Option VObj) : Except JsErr VObj :=
  if !hasViews then Except.ok (newRowData.getD [])
  else
    match newRowData with
    | none => Except.ok []
    | some nrd =>
      views.foldl (fun acc v =>
        match acc with
        | Except.error e => Except.error e
        | Except.ok r => updateRowView refRead v r existingRow) (Except.ok nrd)

end Views

end NanoSQL

/- ============================================================ -/
/- Theorems                                                      -/
/- ============================================================ -/

namespace NanoSQL

namespace ORM

theorem list_eq_of_pointwise {l1 l2 : List Int} (hlen : l1.length = l2.length)
    (h : ∀ i : Nat, ∀ h1 : i < l1.length, ∀ h2 : i < l2.length,
      l1.get ⟨i, h1⟩ = l2.get ⟨i, h2⟩) : l1 = l2 :=
  List.ext_get hlen h

theorem filter_not_mem_self (l : List Int) :
    l.filter (fun v => !(decide (v ∈ l))) = [] := by
  rw [List.filter_eq_nil_iff]
  intro a ha
  simp [ha]

theorem zip_self_filter_ne (l : List Int) :
    (l.zip l).filter (fun p => decide (p.1 ≠ p.2)) = [] := by
  induction l with
  | nil => rfl
  | cons a t ih => simp [List.zip_cons_cons, List.filter, ih]

theorem equals_self_arr (l : List Int) : equals (OrmVal.arr l) (OrmVal.arr l) = false := by
  simp only [equals]
  rw [if_neg (by simp)]
  rw [zip_self_filter_ne]
  simp

theorem updateORMRowsWrites_nil (remote : List (Int × OrmRow)) (rel : Relation)
    (add : Bool) (p : Int) : updateORMRowsWrites remote rel [] add p = [] := by
  simp [updateORMRowsWrites, readRemote]

/-- C1: for an upsert on a table with an ORM relationship where a previous row
record exists, if the old and new relationship column values are equal (same
scalar, or arrays of the same length equal at every position), the add case of
`_syncORM` performs no remote-row updates for that relation.  For scalars this
is because `equals` returns true; for equal arrays `equals` (whose array
branch is inverted) returns false, but the computed add-set and remove-set are
both empty, so `_updateORMRows` fetches no remote rows and writes nothing. -/
theorem syncORM_add_no_writes_of_equal (rel : Relation) (remote : List (Int × OrmRow))
    (old newR : OrmRow) (p : Int)
    (h : sameOrmValue (rowVal old rel.thisColumn) (rowVal newR rel.thisColumn)) :
    syncORMAddWrites rel remote (some old) newR p = [] := by
  rcases h with ⟨a, h1, h2⟩ | ⟨l1, l2, h1, h2, hlen, hpt⟩
  · simp [syncORMAddWrites, h1, h2, equals, jsStrictEq]
  · have hl : l1 = l2 := list_eq_of_pointwise hlen hpt
    subst hl
    simp only [syncORMAddWrites, h1, h2]
    rw [equals_self_arr]
    simp only [Bool.false_eq_true, if_false]
    by_cases hA : rel.thisIsArray
    · simp only [hA, if_true, orEmpty]
      rw [filter_not_mem_self, updateORMRowsWrites_nil, updateORMRowsWrites_nil]
      rfl
    · simp [hA, scalarKeys, updateORMRowsWrites_nil]

/-- Witness for C1 at a concrete input: old and new rows both carry
`tags = [1, 2]` on an array-to-array relation; the hypothesis holds and no
remote write is performed. -/
theorem syncORM_add_no_writes_of_equal_witness :
    sameOrmValue (rowVal [("tags", OrmVal.arr [1, 2])] "tags")
        (rowVal [("tags", OrmVal.arr [1, 2])] "tags") ∧
    syncORMAddWrites ⟨"tags", true, "posts", true⟩ [(1, [("posts", OrmVal.arr [])])]
        (some [("tags", OrmVal.arr [1, 2])]) [("tags", OrmVal.arr [1, 2])] 9 = [] := by
  have h : sameOrmValue (rowVal [("tags", OrmVal.arr [1, 2])] "tags")
      (rowVal [("tags", OrmVal.arr [1, 2])] "tags") :=
    Or.inr ⟨[1, 2], [1, 2], rfl, rfl, rfl, fun i h1 h2 => rfl⟩
  exact ⟨h, syncORM_add_no_writes_of_equal ⟨"tags", true, "posts", true⟩
    [(1, [("posts", OrmVal.arr [])])] [("tags", OrmVal.arr [1, 2])]
    [("tags", OrmVal.arr [1, 2])] 9 h⟩

end ORM

namespace WhereEval

theorem whereReduce_decided (hasOr : Bool) (l : List WElem) (idx : Nat) (d : Bool)
    (pc : Option Conn) : whereReduce hasOr l idx d (some d) pc = d := by
  induction l generalizing idx with
  | nil => rfl
  | cons e rest ih => simp only [whereReduce]; exact ih (idx + 1)

theorem specFold_false_all_and (ps : List (Conn × Bool))
    (h : ∀ cb ∈ ps, cb.1 = Conn.and) : specFold false ps = false := by
  induction ps with
  | nil => rfl
  | cons cb rest ih =>
    have hc : cb.1 = Conn.and := h cb (List.mem_cons_self _ _)
    simp only [specFold, List.foldl_cons, hc, applyConn]
    exact ih (fun x hx => h x (List.mem_cons_of_mem _ hx))

theorem whereReduce_cons (hasOr : Bool) (e : WElem) (rest : List WElem) (idx : Nat)
    (p : Bool) (pc : Option Conn) :
    whereReduce hasOr (e :: rest) idx p none pc =
      if idx % 2 = 1 then whereReduce hasOr rest (idx + 1) p none (connOf e)
      else if !hasOr && !(leafVal e) then
        whereReduce hasOr rest (idx + 1) false (some false) pc
      else if idx = 0 then whereReduce hasOr rest (idx + 1) (leafVal e) none pc
      else if pc = some Conn.and then
        whereReduce hasOr rest (idx + 1) (p && leafVal e) none pc
      else whereReduce hasOr rest (idx + 1) (p || leafVal e) none pc := by
  cases pc with
  | none => rfl
  | some c => cases c with
    | and => rfl
    | or => rfl

theorem whereReduce_pairs_or (ps : List (Conn × Bool)) (k : Nat) (p : Bool)
    (pc : Option Conn) :
    whereReduce true (ps.flatMap (fun cb => [WElem.conn cb.1, WElem.leaf cb.2]))
      (2 * k + 1) p none pc = specFold p ps := by
  induction ps generalizing k p pc with
  | nil => rfl
  | cons cb rest ih =>
    obtain ⟨c, bb⟩ := cb
    simp only [List.flatMap_cons, List.cons_append, List.nil_append, List.singleton_append]
    rw [whereReduce_cons, if_pos (by omega)]
    rw [whereReduce_cons, if_neg (by omega), if_neg (by simp), if_neg (by omega)]
    have h2 : 2 * k + 1 + 1 + 1 = 2 * (k + 1) + 1 := by omega
    cases c with
    | and =>
      rw [if_pos (by simp [connOf]), h2, ih (k + 1) (p && leafVal (WElem.leaf bb)) (connOf (WElem.conn Conn.and))]
      simp [specFold, applyConn, leafVal]
    | or =>
      rw [if_neg (by simp [connOf]), h2, ih (k + 1) (p || leafVal (WElem.leaf bb)) (connOf (WElem.conn Conn.or))]
      simp [specFold, applyConn, leafVal]

theorem whereReduce_pairs_and (ps : List (Conn × Bool)) (k : Nat) (p : Bool)
    (pc : Option Conn) (h : ∀ cb ∈ ps, cb.1 = Conn.and) :
    whereReduce false (ps.flatMap (fun cb => [WElem.conn cb.1, WElem.leaf cb.2]))
      (2 * k + 1) p none pc = specFold p ps := by
  induction ps generalizing k p pc with
  | nil => rfl
  | cons cb rest ih =>
    obtain ⟨c, bb⟩ := cb
    have hc : c = Conn.and := h (c, bb) (List.mem_cons_self _ _)
    subst hc
    have hrest : ∀ x ∈ rest, x.1 = Conn.and := fun x hx => h x (List.mem_cons_of_mem _ hx)
    simp only [List.flatMap_cons, List.cons_append, List.nil_append, List.singleton_append]
    rw [whereReduce_cons, if_pos (by omega)]
    rw [whereReduce_cons, if_neg (by omega)]
    have h2 : 2 * k + 1 + 1 + 1 = 2 * (k + 1) + 1 := by omega
    cases hb : bb with
    | false =>
      rw [if_pos (by simp [leafVal])]
      rw [whereReduce_decided]
      have hs : specFold p ((Conn.and, false) :: rest) = specFold false rest := by
        simp [specFold, applyConn]
      rw [hs, specFold_false_all_and rest hrest]
    | true =>
      rw [if_neg (by simp [leafVal]), if_neg (by omega), if_pos (by simp [connOf])]
      rw [h2, ih (k + 1) (p && leafVal (WElem.leaf true)) (connOf (WElem.conn Conn.and)) hrest]
      simp [specFold, applyConn, leafVal]

theorem no_or_all_and (b : Bool) (rest : List (Conn × Bool))
    (h : hasOrB (interleave b rest) = false) : ∀ cb ∈ rest, cb.1 = Conn.and := by
  intro cb hcb
  cases hcc : cb.1 with
  | and => rfl
  | or =>
    exfalso
    have hmem : WElem.conn Conn.or ∈ interleave b rest := by
      simp only [interleave, List.mem_cons]
      right
      rw [List.mem_flatMap]
      exact ⟨cb, hcb, by rw [hcc]; simp⟩
    rw [hasOrB, decide_eq_false_iff_not] at h
    exact h hmem

theorem whereReduce_head (hasOr b : Bool) (ps : List (Conn × Bool)) :
    whereReduce hasOr (interleave b ps) 0 false none none =
      if hasOr = false ∧ b = false then false
      else whereReduce hasOr (ps.flatMap (fun cb => [WElem.conn cb.1, WElem.leaf cb.2]))
        1 b none none := by
  cases hasOr <;> cases b <;>
    simp [interleave, whereReduce, leafVal, whereReduce_decided]

/-- C5: on every well-formed alternating compound WHERE list, `_where` returns
exactly the plain left-to-right fold of the leaf comparison results combined by
the connectives.  In particular the AND-short-circuit taken when no OR appears
(which decides false at the first false leaf) never changes the result, and
when an OR appears every leaf is combined per position with no early exit. -/
theorem whereCompound_eq_specFold (b : Bool) (rest : List (Conn × Bool)) :
    whereCompound (interleave b rest) = specFold b rest := by
  rw [whereCompound, whereReduce_head]
  have hone : (1 : Nat) = 2 * 0 + 1 := by omega
  cases hOr : hasOrB (interleave b rest) with
  | true =>
    rw [if_neg (by simp)]
    rw [hone]
    exact whereReduce_pairs_or rest 0 b none
  | false =>
    have hall : ∀ cb ∈ rest, cb.1 = Conn.and := no_or_all_and b rest hOr
    cases hb : b with
    | false =>
      rw [if_pos ⟨rfl, rfl⟩]
      exact (specFold_false_all_and rest hall).symm
    | true =>
      rw [if_neg (by simp)]
      rw [hone]
      exact whereReduce_pairs_and rest 0 true none hall

end WhereEval

namespace Search

/-- C4: the exact search filter of `_selectRowsByIndexOrSearch` keeps a row
in which the query tokens appear but NOT contiguously.  For the three-token
query a(0) b(1) c(2) and the stored tokenization [a, b, x, c], all three
tokens match (term-count filter passes) and the contiguity loop only pairs the
single occurrence of the first word with the second query token (checking c is
never reached), so the row is returned even though the sequence [a, b, c] does
not occur contiguously — contradicting the claim, which requires such rows to
be excluded. -/
theorem exact_search_keeps_noncontiguous_row :
    searchExactSelect [⟨"a", 0⟩, ⟨"b", 1⟩, ⟨"c", 2⟩] [(1, ["a", "b", "x", "c"])] = [1] ∧
    contiguousIn ["a", "b", "c"] ["a", "b", "x", "c"] = false := by
  constructor
  · rfl
  · rfl

end Search

namespace Inst

/-- C6 counterexample: on the instance table [{a: 1}] with a WHERE clause
matching the row and `actionArgs = {a: 2}`, the claim says the row is replaced
by the merge in which actionArgs overwrites, i.e. a = 2; the code spreads
`{...actionArgs, ...row}`, so the row field wins and the result keeps a = 1. -/
theorem upsertInstance_args_do_not_overwrite :
    ((upsertInstance [[("a", 1)]] (fun r => getField r "a" == some 1) [("a", 2)]).map
      (fun r => getField r "a")) = [some 1] ∧
    ((([[("a", 1)]] : List Obj).map
      (fun r => if getField r "a" == some 1 then spreadArgsWin [("a", 2)] r else r)).map
      (fun r => getField r "a")) = [some 2] ∧
    some (1 : Int) ≠ some (2 : Int) := by
  refine ⟨rfl, rfl, by decide⟩

/-- C6 (amended): an instance-table UPSERT with a WHERE clause returns the
input rows with each row matching the WHERE clause replaced by the JS spread
`{...actionArgs, ...row}` — in which the existing row fields take precedence
and actionArgs only contributes fields absent from the row — and every
non-matching row unchanged. -/
theorem upsertInstance_merge_row_wins (table : List Obj) (w : Obj → Bool) (args : Obj) :
    upsertInstance table w args = table.map (fun r => if w r then spread args r else r) := by
  unfold upsertInstance
  refine List.map_congr_left ?_
  intro r hr
  by_cases hw : w r
  · rw [if_pos (List.mem_filter.mpr ⟨hr, hw⟩), if_pos hw]
  · rw [if_neg (fun hmem => hw (List.mem_filter.mp hmem).2), if_neg hw]

end Inst

namespace RangeSel

/-- C7: evaluating `_selectByRange` at the failing input.  On the four-row
table [10, 11, 12, 13] with `range = [2, 1]` the code requests the inclusive
positional read [1, 3] and returns THREE rows — positions 1, 2 and 3 — where
the claim says exactly the rows at positions [1, 3), i.e. [11, 12].  The
negative branch agrees with the claim: `range = [-2, 0]` returns the last two
rows. -/
theorem selectByRange_positive_off_by_one :
    selectByRange ([10, 11, 12, 13] : List Int) 2 1 = [11, 12, 13] ∧
    ([11, 12, 13] : List Int) ≠ [11, 12] ∧
    selectByRange ([10, 11, 12, 13] : List Int) (-2) 0 = [12, 13] := by
  refine ⟨by decide, by decide, by decide⟩

end RangeSel

namespace Engine

/-- C2: evaluating `_select` at the failing input.  On a two-row table with a
cacheable SELECT carrying `limit = 1`, the first execution returns one row but
the cache-store line of the mutation branch stores the UNMUTATED selected
rows, so the cache holds both rows and the second, identical execution
returns the cached two rows — different from the first result, contradicting
the claim that the cached value equals the delivered result and that the two
executions agree. -/
theorem select_cache_stores_unmutated_rows :
    (select st2 qLimit).1 = [[("id", 1)]] ∧
    cacheGet (select st2 qLimit).2 "t" qLimit = some [[("id", 1)], [("id", 2)]] ∧
    (select (select st2 qLimit).2 qLimit).1 = [[("id", 1)], [("id", 2)]] ∧
    (select (select st2 qLimit).2 qLimit).1 ≠ (select st2 qLimit).1 := by
  refine ⟨rfl, rfl, rfl, by decide⟩

/-- C3 counterexample: an upsert whose WHERE clause matches no stored row
completes without touching the cache, so a previously stored result for the
same table survives — the per-table cache is NOT empty after this upsert,
contradicting the claim as stated. -/
theorem upsert_zero_matches_leaves_cache :
    (upsert st3 qNoMatch).cache "t" ≠ [] ∧
    cacheGet (upsert st3 qNoMatch) "t" qCached = some [[("id", 1)]] := by
  refine ⟨by decide, rfl⟩

/-- C3 (amended): a direct (no-WHERE) upsert, a WHERE-upsert matching at
least one row, a WHERE-delete matching at least one row, a no-WHERE delete
and a drop all leave the per-table result cache of the target table empty;
but a WHERE-upsert or WHERE-delete matching no rows leaves the whole cache
untouched. -/
theorem write_queries_clear_cache (st : DBState) (t : String) (l : String × Int)
    (args : Obj) :
    (upsert st ⟨t, none, 0, 0, false, false, args⟩).cache t = [] ∧
    ((st.tables t).filter (evalLeaf l) ≠ [] →
      (upsert st ⟨t, some l, 0, 0, false, false, args⟩).cache t = []) ∧
    ((st.tables t).filter (evalLeaf l) ≠ [] →
      (deleteQ st ⟨t, some l, 0, 0, false, false, args⟩).cache t = []) ∧
    (deleteQ st ⟨t, none, 0, 0, false, false, args⟩).cache t = [] ∧
    (dropQ st t).cache t = [] ∧
    ((st.tables t).filter (evalLeaf l) = [] →
      (upsert st ⟨t, some l, 0, 0, false, false, args⟩).cache = st.cache) ∧
    ((st.tables t).filter (evalLeaf l) = [] →
      (deleteQ st ⟨t, some l, 0, 0, false, false, args⟩).cache = st.cache) := by
  refine ⟨?_, ?_, ?_, ?_, ?_, ?_, ?_⟩
  · show (upsert st ⟨t, none, 0, 0, false, false, args⟩).cache t = []
    unfold upsert
    cases hx : getF args (st.pkOf t) with
    | some pk => simp [cacheClear, writeRowByPk, hx]
    | none => simp [cacheClear, hx]
  · intro h
    unfold upsert
    simp only [List.isEmpty_iff]
    rw [if_neg h]
    simp [cacheClear]
  · intro h
    unfold deleteQ
    simp only [List.isEmpty_iff]
    rw [if_neg h]
    simp [cacheClear]
  · show (deleteQ st ⟨t, none, 0, 0, false, false, args⟩).cache t = []
    unfold deleteQ dropQ
    simp [cacheClear]
  · unfold dropQ
    simp [cacheClear]
  · intro h
    unfold upsert
    simp only [h, List.isEmpty_nil, if_true]
  · intro h
    unfold deleteQ
    simp only [h, List.isEmpty_nil, if_true]

/-- Witness for the amended C3 at a concrete input: on a state whose table t
holds the row id = 1 and whose cache holds an entry for t, a WHERE-upsert
matching that row and a drop both leave the cache of t empty. -/
theorem write_queries_clear_cache_witness :
    (st3.tables "t").filter (evalLeaf ("id", 1)) ≠ [] ∧
    (upsert st3 ⟨"t", some ("id", 1), 0, 0, false, false, [("x", 5)]⟩).cache "t" = [] ∧
    (dropQ st3 "t").cache "t" = [] := by
  have h : (st3.tables "t").filter (evalLeaf ("id", 1)) ≠ [] := by decide
  have main := write_queries_clear_cache st3 "t" ("id", 1) [("x", 5)]
  exact ⟨h, main.2.1 h, main.2.2.2.2.1⟩

end Engine

namespace Err

theorem map_rd_no_write (l : List Obj) :
    hasWriteOrDelete (l.map (fun r => Eff.rd (pkOf r))) = false := by
  induction l with
  | nil => rfl
  | cons a tl ih => simp [hasWriteOrDelete, isWriteEff]

theorem rowSelection_effects_reads (secIdx : List String) (trieRows store : List Obj)
    (q : EQuery) : hasWriteOrDelete (rowSelection secIdx trieRows store q).2 = false := by
  unfold rowSelection
  repeat' split
  all_goals first
    | rfl
    | exact map_rd_no_write _

theorem execSelect_effects_reads (registered secIdx : List String)
    (trieRows store : List Obj) (q : EQuery) :
    hasWriteOrDelete (execSelect registered secIdx trieRows store q).2 = false := by
  have heff := rowSelection_effects_reads secIdx trieRows store q
  unfold execSelect
  cases htab : q.table with
  | inr inst =>
    cases hres : instanceGetRows inst q with
    | error e => simp [hres, hasWriteOrDelete]
    | ok rows =>
      by_cases ha : q.actionArgs.isEmpty = true <;>
        simp [hres, ha, hasWriteOrDelete]
  | inl n =>
    cases hsel : rowSelection secIdx trieRows store q with
    | mk fst snd =>
      rw [hsel] at heff
      cases fst with
      | error e => simpa [hsel] using heff
      | ok rows =>
        by_cases ha : q.actionArgs.isEmpty = true <;>
          simpa [hsel, ha] using heff

theorem rowSelection_fatal (secIdx : List String) (trieRows store : List Obj)
    (q : EQuery) (h : (q.join && q.orm) = true ∨ 1 < presentCount q) :
    ∃ e, rowSelection secIdx trieRows store q = (Except.error e, []) := by
  unfold rowSelection
  by_cases h1 : (q.join && q.orm) = true
  · exact ⟨QErr.joinAndOrm, by rw [if_pos h1]⟩
  · have h2 : 1 < presentCount q := by
      cases h with
      | inl hh => exact absurd hh h1
      | inr hh => exact hh
    exact ⟨QErr.oneOfTrieRangeWhere, by rw [if_neg h1, if_pos h2]⟩

theorem instanceGetRows_fatal (rows : List Obj) (q : EQuery)
    (h : (q.join || q.orm || q.trie) = true) :
    instanceGetRows rows q = Except.error QErr.instanceJoinOrmTrie := by
  unfold instanceGetRows
  rw [if_pos h]

theorem execSelect_propagates (registered secIdx : List String) (trieRows store : List Obj)
    (q : EQuery) (n : String) (htab : q.table = Sum.inl n) (e : QErr)
    (hsel : rowSelection secIdx trieRows store q = (Except.error e, [])) :
    execSelect registered secIdx trieRows store q = (Except.error e, []) := by
  unfold execSelect
  rw [htab]
  simp [hsel]

theorem exec_propagates (registered secIdx : List String) (trieRows store : List Obj)
    (q : EQuery) (n : String) (htab : q.table = Sum.inl n) (l : String × Int)
    (hl : q.whereC = some l) (e : QErr)
    (hsel : rowSelection secIdx trieRows store q = (Except.error e, [])) :
    execSelect registered secIdx trieRows store q = (Except.error e, []) ∧
    execUpsert secIdx trieRows store q = (Except.error e, []) ∧
    execDelete secIdx trieRows store q = (Except.error e, []) := by
  refine ⟨execSelect_propagates registered secIdx trieRows store q n htab e hsel, ?_, ?_⟩
  · unfold execUpsert
    rw [htab]
    simp [hl, hsel]
  · unfold execDelete
    rw [htab]
    simp [hl, hsel]

theorem execSelect_inst_propagates (registered secIdx : List String)
    (trieRows store : List Obj) (q : EQuery) (rowsI : List Obj)
    (htab : q.table = Sum.inr rowsI)
    (h : instanceGetRows rowsI q = Except.error QErr.instanceJoinOrmTrie) :
    execSelect registered secIdx trieRows store q =
      (Except.error QErr.instanceJoinOrmTrie, []) := by
  unfold execSelect
  rw [htab]
  simp [h]

theorem execUpsert_inst_propagates (secIdx : List String) (trieRows store : List Obj)
    (q : EQuery) (rowsI : List Obj) (htab : q.table = Sum.inr rowsI)
    (h : instanceGetRows rowsI q = Except.error QErr.instanceJoinOrmTrie) :
    execUpsert secIdx trieRows store q = (Except.error QErr.instanceJoinOrmTrie, []) := by
  unfold execUpsert
  rw [htab]
  simp [h]

theorem execDelete_inst_propagates (secIdx : List String) (trieRows store : List Obj)
    (q : EQuery) (rowsI : List Obj) (htab : q.table = Sum.inr rowsI) (l : String × Int)
    (hl : q.whereC = some l)
    (h : instanceGetRows rowsI q = Except.error QErr.instanceJoinOrmTrie) :
    execDelete secIdx trieRows store q = (Except.error QErr.instanceJoinOrmTrie, []) := by
  unfold execDelete
  rw [htab]
  simp [hl, h]

theorem mutateRows_err (registered : List String) (cols : List SelExpr) (rows : List Obj)
    (h : ∃ nm, SelExpr.fn nm ∈ cols ∧ ¬ nm ∈ registered) :
    isErr (mutateRows registered cols rows) = true := by
  obtain ⟨nm, hmem, hreg⟩ := h
  have hex : ∃ x ∈ cols, (fun e => match e with
      | SelExpr.fn nn => decide (¬ nn ∈ registered)
      | SelExpr.col _ => false) x = true := ⟨SelExpr.fn nm, hmem, by simp [hreg]⟩
  have hsome := List.find?_isSome.mpr hex
  obtain ⟨x, hx⟩ := Option.isSome_iff_exists.mp hsome
  have px := List.find?_some hx
  unfold mutateRows
  rw [hx]
  cases x with
  | col c => simp at px
  | fn nn => rfl

/-- C8 counterexample: a SELECT on a named one-row table whose selection
expressions call the unregistered function BOGUS fails with the unknown
function error — but the row selection has already run, so the query DID read
the stored row, contradicting the claim that no rows are read by a failing
query. -/
theorem select_unknown_function_reads_rows :
    (execSelect [] [] [] [[("id", 1)]] qFn).1 =
      Except.error (QErr.unknownFunction "BOGUS") ∧
    (execSelect [] [] [] [[("id", 1)]] qFn).2 = [Eff.rd 1] ∧
    ([Eff.rd 1] : List Eff) ≠ [] := by
  refine ⟨rfl, rfl, by decide⟩

/-- C8 (amended): a query with both join and orm, a named-table query with
more than one of where/range/trie, or a join/orm/trie clause against an
instance table, fails with an error and commits NO adapter effect at all (no
row read, written or deleted) — for SELECTs and for instance-table UPSERTs
unconditionally, and for UPSERT and DELETE whenever the query carries a
WHERE clause.  (A no-WHERE named upsert takes the direct-write path and a
no-WHERE delete performs a drop, neither of which runs these checks; a
no-WHERE instance delete returns empty without error.)  A SELECT whose
selection expressions name an unregistered function also fails with an error
and never writes or deletes, but its row selection runs before the
projection stage, so rows may have been read. -/
theorem fatal_checks_commit_nothing (registered secIdx : List String)
    (trieRows store : List Obj) (q : EQuery) :
    (q.join = true → q.orm = true →
      (isErr (execSelect registered secIdx trieRows store q).1 = true ∧
        (execSelect registered secIdx trieRows store q).2 = []) ∧
      (q.whereC.isSome = true →
        (isErr (execUpsert secIdx trieRows store q).1 = true ∧
          (execUpsert secIdx trieRows store q).2 = []) ∧
        (isErr (execDelete secIdx trieRows store q).1 = true ∧
          (execDelete secIdx trieRows store q).2 = [])) ∧
      ((∃ rowsI, q.table = Sum.inr rowsI) →
        isErr (execUpsert secIdx trieRows store q).1 = true ∧
        (execUpsert secIdx trieRows store q).2 = [])) ∧
    ((∃ n, q.table = Sum.inl n) → 1 < presentCount q →
      (isErr (execSelect registered secIdx trieRows store q).1 = true ∧
        (execSelect registered secIdx trieRows store q).2 = []) ∧
      (q.whereC.isSome = true →
        (isErr (execUpsert secIdx trieRows store q).1 = true ∧
          (execUpsert secIdx trieRows store q).2 = []) ∧
        (isErr (execDelete secIdx trieRows store q).1 = true ∧
          (execDelete secIdx trieRows store q).2 = []))) ∧
    ((∃ rowsI, q.table = Sum.inr rowsI) → (q.join = true ∨ q.orm = true ∨ q.trie = true) →
      (isErr (execSelect registered secIdx trieRows store q).1 = true ∧
        (execSelect registered secIdx trieRows store q).2 = []) ∧
      (isErr (execUpsert secIdx trieRows store q).1 = true ∧
        (execUpsert secIdx trieRows store q).2 = []) ∧
      (q.whereC.isSome = true →
        isErr (execDelete secIdx trieRows store q).1 = true ∧
        (execDelete secIdx trieRows store q).2 = [])) ∧
    ((∃ nm, SelExpr.fn nm ∈ q.actionArgs ∧ ¬ nm ∈ registered) →
      isErr (execSelect registered secIdx trieRows store q).1 = true ∧
      hasWriteOrDelete (execSelect registered secIdx trieRows store q).2 = false) := by
  refine ⟨?_, ?_, ?_, ?_⟩
  · intro hj ho
    cases htab : q.table with
    | inl n =>
      obtain ⟨e, hsel⟩ := rowSelection_fatal secIdx trieRows store q
        (Or.inl (by rw [hj, ho]; rfl))
      have h1 := execSelect_propagates registered secIdx trieRows store q n htab e hsel
      refine ⟨⟨by rw [h1]; rfl, by rw [h1]⟩, ?_, ?_⟩
      · intro hw
        obtain ⟨l, hl⟩ := Option.isSome_iff_exists.mp hw
        obtain ⟨_, h2, h3⟩ :=
          exec_propagates registered secIdx trieRows store q n htab l hl e hsel
        exact ⟨⟨by rw [h2]; rfl, by rw [h2]⟩, ⟨by rw [h3]; rfl, by rw [h3]⟩⟩
      · rintro ⟨rowsI, habs⟩
        exact Sum.noConfusion habs
    | inr rowsI =>
      have hinst := instanceGetRows_fatal rowsI q (by rw [hj]; rfl)
      have h1 := execSelect_inst_propagates registered secIdx trieRows store q rowsI htab hinst
      have h2 := execUpsert_inst_propagates secIdx trieRows store q rowsI htab hinst
      refine ⟨⟨by rw [h1]; rfl, by rw [h1]⟩, ?_, fun _ => ⟨by rw [h2]; rfl, by rw [h2]⟩⟩
      intro hw
      obtain ⟨l, hl⟩ := Option.isSome_iff_exists.mp hw
      have h3 := execDelete_inst_propagates secIdx trieRows store q rowsI htab l hl hinst
      exact ⟨⟨by rw [h2]; rfl, by rw [h2]⟩, ⟨by rw [h3]; rfl, by rw [h3]⟩⟩
  · intro hn hcnt
    obtain ⟨n, htab⟩ := hn
    obtain ⟨e, hsel⟩ := rowSelection_fatal secIdx trieRows store q (Or.inr hcnt)
    have h1 := execSelect_propagates registered secIdx trieRows store q n htab e hsel
    refine ⟨⟨by rw [h1]; rfl, by rw [h1]⟩, ?_⟩
    intro hw
    obtain ⟨l, hl⟩ := Option.isSome_iff_exists.mp hw
    obtain ⟨_, h2, h3⟩ := exec_propagates registered secIdx trieRows store q n htab l hl e hsel
    exact ⟨⟨by rw [h2]; rfl, by rw [h2]⟩, ⟨by rw [h3]; rfl, by rw [h3]⟩⟩
  · intro hr hjot
    obtain ⟨rowsI, htab⟩ := hr
    have hb : (q.join || q.orm || q.trie) = true := by
      cases hjot with
      | inl h => rw [h]; rfl
      | inr h => cases h with
        | inl h => rw [h]; simp
        | inr h => rw [h]; simp
    have hinst := instanceGetRows_fatal rowsI q hb
    have h1 := execSelect_inst_propagates registered secIdx trieRows store q rowsI htab hinst
    have h2 := execUpsert_inst_propagates secIdx trieRows store q rowsI htab hinst
    refine ⟨⟨by rw [h1]; rfl, by rw [h1]⟩, ⟨by rw [h2]; rfl, by rw [h2]⟩, ?_⟩
    intro hw
    obtain ⟨l, hl⟩ := Option.isSome_iff_exists.mp hw
    have h3 := execDelete_inst_propagates secIdx trieRows store q rowsI htab l hl hinst
    exact ⟨by rw [h3]; rfl, by rw [h3]⟩
  · intro hfn
    refine ⟨?_, execSelect_effects_reads registered secIdx trieRows store q⟩
    have hne : q.actionArgs.isEmpty = false := by
      obtain ⟨nm, hmem, _⟩ := hfn
      cases hq : q.actionArgs with
      | nil => rw [hq] at hmem; cases hmem
      | cons a tl => rfl
    unfold execSelect
    cases htab : q.table with
    | inr inst =>
      cases hres : instanceGetRows inst q with
      | error e => simp [hres, isErr]
      | ok rows =>
        simp only [hres, hne, Bool.false_eq_true, if_false]
        exact mutateRows_err registered q.actionArgs rows hfn
    | inl n =>
      cases hsel : rowSelection secIdx trieRows store q with
      | mk fst snd =>
        cases fst with
        | error e => simp [hsel, isErr]
        | ok rows =>
          simp only [hsel, hne, Bool.false_eq_true, if_false]
          exact mutateRows_err registered q.actionArgs rows hfn

/-- Witness for the amended C8 at concrete inputs: the four error classes at
explicit queries on a one-row store, applying the theorem with each
hypothesis discharged — including the WHERE-clause hypothesis of the upsert
and delete conclusions. -/
theorem fatal_checks_commit_nothing_witness :
    (isErr (execSelect [] [] [] [[("id", 1)]] qJoinOrm).1 = true ∧
      (execSelect [] [] [] [[("id", 1)]] qJoinOrm).2 = []) ∧
    (isErr (execUpsert [] [] [[("id", 1)]] qJoinOrm).1 = true ∧
      (execUpsert [] [] [[("id", 1)]] qJoinOrm).2 = []) ∧
    (isErr (execSelect [] [] [] [[("id", 1)]] qMulti).1 = true ∧
      (execSelect [] [] [] [[("id", 1)]] qMulti).2 = []) ∧
    (isErr (execDelete [] [] [[("id", 1)]] qMulti).1 = true ∧
      (execDelete [] [] [[("id", 1)]] qMulti).2 = []) ∧
    (isErr (execUpsert [] [] [[("id", 1)]] qInstTrie).1 = true ∧
      (execUpsert [] [] [[("id", 1)]] qInstTrie).2 = []) ∧
    (isErr (execSelect [] [] [] [[("id", 1)]] qFn).1 = true ∧
      hasWriteOrDelete (execSelect [] [] [] [[("id", 1)]] qFn).2 = false) := by
  have main1 := fatal_checks_commit_nothing [] [] [] [[("id", 1)]] qJoinOrm
  have main2 := fatal_checks_commit_nothing [] [] [] [[("id", 1)]] qMulti
  have main3 := fatal_checks_commit_nothing [] [] [] [[("id", 1)]] qInstTrie
  have main4 := fatal_checks_commit_nothing [] [] [] [[("id", 1)]] qFn
  refine ⟨(main1.1 rfl rfl).1, ((main1.1 rfl rfl).2.1 rfl).1, ?_, ?_, ?_, ?_⟩
  · exact (main2.2.1 ⟨"t", rfl⟩ (by decide)).1
  · exact ((main2.2.1 ⟨"t", rfl⟩ (by decide)).2 rfl).2
  · exact (main3.2.2.1 ⟨[[("id", 1)]], rfl⟩ (Or.inr (Or.inr rfl))).2.1
  · exact main4.2.2.2 ⟨"BOGUS", by decide, by decide⟩

end Err

namespace Frozen

/-- C9: evaluating the two mutator paths on a fetched row.  The remote-view
update (`_updateRemoteViews`) assigns the projected column directly on the
fetched row without an `Object.isFrozen` copy, so the fetched object after
the step differs from the object that was fetched — it is mutated in place —
whereas the ORM back-reference update (`_updateORMRows`) on a frozen fetched
row copies first and leaves the original unchanged, as the claim requires of
every path. -/
theorem updateRemoteViews_mutates_fetched_row :
    (updateRemoteViewsStep [("userName", 1)] [("name", 2)] [("name", "userName")]).2 ≠
      [("userName", 1)] ∧
    (updateORMRowsStep true ⟨"tags", true, "posts", true⟩ true 9
      [("posts", ORM.OrmVal.arr [])]).2 = [("posts", ORM.OrmVal.arr [])] := by
  refine ⟨by decide, rfl⟩

end Frozen

namespace Views

/-- C10: evaluating `_updateRowViews` on the direct-upsert path with a fresh
primary key.  The incoming row sets the view reference column userId, no
stored row exists under the incoming primary key, so the upsert passes a null
existing row; the view update then reads `existingRow[pkColumn]` of null and
throws a TypeError instead of completing — contradicting the claim that the
local view-update step never dereferences the absent existing row. -/
theorem updateRowViews_null_existing_throws :
    updateRowViews true [⟨"userId", [("userName", "name")], true⟩] (fun _ => [])
      (some [("id", JV.num 5), ("userId", JV.num 3)]) none =
      Except.error JsErr.typeError := rfl

end Views

end NanoSQL
